import Mathlib

/-!
Verification of the versioned secret store of the `gsm` Google Secret Manager
emulator (packages `internal/models` and `internal/storage`).

The Go code is shallowly embedded:
* Go `map[string]T` becomes an association list `List (String × T)` with
  lookup / replace-or-insert / delete operations (`lookupA`, `insertA`,
  `eraseA`);
* `[]byte` becomes `List Nat` (each element a byte value);
* `time.Now()` and the random etag produced by `generateEtag()` are
  non-deterministic inputs of the Go code, so the corresponding Lean
  functions take the timestamp and the etag as explicit parameters;
* fallible operations return `Except StorageErr`; mutating operations on
  the store return the (possibly unchanged) store next to the result,
  mirroring Go's in-place mutation;
* `crc32.ChecksumIEEE` and `sha256.Sum256` are embedded as executable
  bit-level functions over byte lists.
-/

/-- Association-list model of Go `map[string]α` read `m[key]`. -/
def lookupA {α : Type} : List (String × α) → String → Option α
  | [], _ => none
  | (k, v) :: rest, key => if k = key then some v else lookupA rest key

/-- Association-list model of Go `m[key] = v` (replace an existing binding,
otherwise add one). -/
def insertA {α : Type} : List (String × α) → String → α → List (String × α)
  | [], key, v => [(key, v)]
  | (k, w) :: rest, key, v =>
    if k = key then (key, v) :: rest else (k, w) :: insertA rest key v

/-- Association-list model of Go `delete(m, key)`. -/
def eraseA {α : Type} : List (String × α) → String → List (String × α)
  | [], _ => []
  | (k, w) :: rest, key =>
    if k = key then eraseA rest key else (k, w) :: eraseA rest key

/-- `hash/crc32`: one bit step of the reflected IEEE polynomial 0xEDB88320. -/
def crc32Bit (c : Nat) : Nat :=
  if c &&& 1 = 1 then (c >>> 1) ^^^ 0xEDB88320 else c >>> 1

/-- `hash/crc32`: eight bit steps, i.e. the processing of one input byte. -/
def crc32Byte : Nat → Nat → Nat
  | 0, c => c
  | k + 1, c => crc32Byte k (crc32Bit c)

/-- Embedding of Go `crc32.ChecksumIEEE` over a byte list. -/
def ChecksumIEEE (data : List Nat) : Nat :=
  (data.foldl (fun crc b => crc32Byte 8 (crc ^^^ (b &&& 255))) 0xFFFFFFFF) ^^^ 0xFFFFFFFF

/-- The SHA-256 round constants. -/
def sha256K : List Nat :=
  [1116352408, 1899447441, 3049323471, 3921009573,
   961987163, 1508970993, 2453635748, 2870763221,
   3624381080, 310598401, 607225278, 1426881987,
   1925078388, 2162078206, 2614888103, 3248222580,
   3835390401, 4022224774, 264347078, 604807628,
   770255983, 1249150122, 1555081692, 1996064986,
   2554220882, 2821834349, 2952996808, 3210313671,
   3336571891, 3584528711, 113926993, 338241895,
   666307205, 773529912, 1294757372, 1396182291,
   1695183700, 1986661051, 2177026350, 2456956037,
   2730485921, 2820302411, 3259730800, 3345764771,
   3516065817, 3600352804, 4094571909, 275423344,
   430227734, 506948616, 659060556, 883997877,
   958139571, 1322822218, 1537002063, 1747873779,
   1955562222, 2024104815, 2227730452, 2361852424,
   2428436474, 2756734187, 3204031479, 3329325298]

/-- The SHA-256 initial hash state. -/
def sha256H0 : List Nat :=
  [1779033703, 3144134277, 1013904242, 2773480762,
   1359893119, 2600822924, 528734635, 1541459225]

/-- Rotate a 32-bit word right by `n`. -/
def rotr32 (n x : Nat) : Nat :=
  ((x >>> n) ||| (x <<< (32 - n))) &&& 0xFFFFFFFF

/-- SHA-256 Σ0. -/
def bigSigma0 (x : Nat) : Nat := rotr32 2 x ^^^ rotr32 13 x ^^^ rotr32 22 x

/-- SHA-256 Σ1. -/
def bigSigma1 (x : Nat) : Nat := rotr32 6 x ^^^ rotr32 11 x ^^^ rotr32 25 x

/-- SHA-256 σ0. -/
def smallSigma0 (x : Nat) : Nat := rotr32 7 x ^^^ rotr32 18 x ^^^ (x >>> 3)

/-- SHA-256 σ1. -/
def smallSigma1 (x : Nat) : Nat := rotr32 17 x ^^^ rotr32 19 x ^^^ (x >>> 10)

/-- SHA-256 choice function. -/
def sha256Ch (x y z : Nat) : Nat := (x &&& y) ^^^ ((x ^^^ 0xFFFFFFFF) &&& z)

/-- SHA-256 majority function. -/
def sha256Maj (x y z : Nat) : Nat := (x &&& y) ^^^ (x &&& z) ^^^ (y &&& z)

/-- Big-endian 8-byte encoding of a 64-bit value. -/
def be64 (n : Nat) : List Nat :=
  [(n >>> 56) &&& 255, (n >>> 48) &&& 255, (n >>> 40) &&& 255, (n >>> 32) &&& 255,
   (n >>> 24) &&& 255, (n >>> 16) &&& 255, (n >>> 8) &&& 255, n &&& 255]

/-- Big-endian 4-byte encoding of a 32-bit word. -/
def be32 (n : Nat) : List Nat :=
  [(n >>> 24) &&& 255, (n >>> 16) &&& 255, (n >>> 8) &&& 255, n &&& 255]

/-- SHA-256 padding: append 0x80, zeros up to 56 mod 64, then the
bit length as a big-endian 64-bit value. -/
def sha256Pad (msg : List Nat) : List Nat :=
  msg ++ [0x80] ++ List.replicate ((119 - msg.length % 64) % 64) 0
      ++ be64 (msg.length * 8)

/-- Group a byte list into big-endian 32-bit words. -/
def bytesToWords : List Nat → List Nat
  | b0 :: b1 :: b2 :: b3 :: rest =>
    ((((b0 <<< 8) ||| b1) <<< 8 ||| b2) <<< 8 ||| b3) :: bytesToWords rest
  | _ => []

/-- Split a list into 64-element chunks (`fuel` bounds the recursion by the
list length). -/
def chunks64 : Nat → List Nat → List (List Nat)
  | 0, _ => []
  | _, [] => []
  | fuel + 1, l => l.take 64 :: chunks64 fuel (l.drop 64)

/-- Extend the 16 message-schedule words to 64. -/
def extendWords (w0 : List Nat) : List Nat :=
  (List.range 48).foldl
    (fun w _ =>
      let n := w.length
      w ++ [(smallSigma1 (w.getD (n - 2) 0) + w.getD (n - 7) 0 +
             smallSigma0 (w.getD (n - 15) 0) + w.getD (n - 16) 0) &&& 0xFFFFFFFF])
    w0

/-- One SHA-256 compression round on the 8-word working state. -/
def sha256Round (st : List Nat) (kw : Nat × Nat) : List Nat :=
  match st with
  | [a, b, c, d, e, f, g, h] =>
    let t1 := (h + bigSigma1 e + sha256Ch e f g + kw.1 + kw.2) &&& 0xFFFFFFFF
    let t2 := (bigSigma0 a + sha256Maj a b c) &&& 0xFFFFFFFF
    [(t1 + t2) &&& 0xFFFFFFFF, a, b, c, (d + t1) &&& 0xFFFFFFFF, e, f, g]
  | other => other

/-- Process one 64-byte block into the running hash state. -/
def sha256Block (st : List Nat) (block : List Nat) : List Nat :=
  let w := extendWords (bytesToWords block)
  let st2 := (sha256K.zip w).foldl sha256Round st
  (st.zip st2).map (fun p => (p.1 + p.2) &&& 0xFFFFFFFF)

/-- Embedding of Go `sha256.Sum256`: the 32-byte SHA-256 digest of a byte
list. -/
def sha256Sum (msg : List Nat) : List Nat :=
  let padded := sha256Pad msg
  ((chunks64 padded.length padded).foldl sha256Block sha256H0).flatMap be32

/-- Lower-case hexadecimal digit. -/
def hexDigit (n : Nat) : Char :=
  if n < 10 then Char.ofNat (48 + n) else Char.ofNat (87 + n)

/-- Go `fmt.Sprintf("%08x", n)` for a 32-bit value: eight lower-case hex
digits, zero padded. -/
def hex8 (n : Nat) : String :=
  ⟨(List.range 8).map (fun i => hexDigit ((n >>> ((7 - i) * 4)) &&& 15))⟩

/-- Go `fmt.Sprintf("%x", bytes)`: two lower-case hex digits per byte. -/
def hexBytes (bs : List Nat) : String :=
  ⟨bs.flatMap (fun b => [hexDigit ((b >>> 4) &&& 15), hexDigit (b &&& 15)])⟩

/-- `models.SecretVersionChecksum`. -/
structure SecretVersionChecksum where
  crc32c : String
  sha256 : String
deriving DecidableEq

/-- `models.generateChecksum` (response.go): CRC-32 (IEEE) formatted `%08x`
and SHA-256 formatted `%x`. -/
def generateChecksum (data : List Nat) : SecretVersionChecksum :=
  { crc32c := hex8 (ChecksumIEEE data), sha256 := hexBytes (sha256Sum data) }

/-- `models.SecretVersion` (version.go). `Data` is the payload byte slice;
`CreateTime` is abstracted to a numeric timestamp. -/
structure SecretVersion where
  name : String
  createTime : Nat
  state : String
  etag : String
  data : List Nat
  checksum : SecretVersionChecksum
deriving DecidableEq

/-- `models.StateEnabled`. -/
def StateEnabled : String := "ENABLED"

/-- `models.CustomerManagedEncryption`. -/
structure CustomerManagedEncryption where
  kmsKeyName : String
deriving DecidableEq

/-- `models.Replica`. -/
structure Replica where
  location : String
  customerManagedEncryption : Option CustomerManagedEncryption
deriving DecidableEq

/-- `models.UserManagedReplication`. -/
structure UserManagedReplication where
  replicas : List Replica
deriving DecidableEq

/-- `models.AutomaticReplication`. -/
structure AutomaticReplication where
  customerManagedEncryption : Option CustomerManagedEncryption
deriving DecidableEq

/-- `models.Replication`. -/
structure Replication where
  automatic : Option AutomaticReplication
  userManaged : Option UserManagedReplication
deriving DecidableEq

/-- `models.Secret` (part_000). `Versions` is the version map keyed by
version-id string; `VersionCount` the monotone version counter. -/
structure Secret where
  name : String
  createTime : Nat
  labels : List (String × String)
  replication : Replication
  etag : String
  versions : List (String × SecretVersion)
  versionCount : Nat
deriving DecidableEq

/-- `models.NewSecret` (part_000). `createTime` and `etag` stand for the
non-deterministic `time.Now().UTC()` and `generateEtag()` calls. -/
def NewSecret (projectID secretID : String) (labels : List (String × String))
    (createTime : Nat) (etag : String) : Secret :=
  { name := "projects/" ++ projectID ++ "/secrets/" ++ secretID
    createTime := createTime
    labels := labels
    replication := { automatic := some { customerManagedEncryption := none },
                     userManaged := none }
    etag := etag
    versions := []
    versionCount := 0 }

/-- `models.NewSecretVersion` (version.go). `createTime` and `etag` stand
for the non-deterministic `time.Now().UTC()` and `generateEtag()` calls. -/
def NewSecretVersion (projectID secretID versionID : String) (data : List Nat)
    (createTime : Nat) (etag : String) : SecretVersion :=
  { name := "projects/" ++ projectID ++ "/secrets/" ++ secretID ++
            "/versions/" ++ versionID
    createTime := createTime
    state := StateEnabled
    etag := etag
    data := data
    checksum := generateChecksum data }

/-- The character list of the `"/versions/"` marker searched by
`SecretVersion.GetVersionID`. -/
def versionsMarker : List Char :=
  ['/', 'v', 'e', 'r', 's', 'i', 'o', 'n', 's', '/']

/-- The scan of `SecretVersion.GetVersionID` (version.go): the suffix after
the last occurrence of `"/versions/"` that is followed by at least one
character (`i + len(versionsPrefix) < len(v.Name)` in the Go loop, which
runs from the end of the name). -/
def afterLastMarker : List Char → Option (List Char)
  | [] => none
  | c :: cs =>
    match afterLastMarker cs with
    | some r => some r
    | none =>
      if 10 < (c :: cs).length && versionsMarker.isPrefixOf (c :: cs) then
        some ((c :: cs).drop 10)
      else none

/-- `SecretVersion.GetVersionID` (version.go). -/
def SecretVersion.GetVersionID (v : SecretVersion) : String :=
  match afterLastMarker v.name.data with
  | some r => ⟨r⟩
  | none => ""

/-- The error values of `internal/storage` (`ErrSecretNotFound`,
`ErrVersionNotFound`, `ErrSecretExists`) plus the wrapped file error a
failing `Save` makes `PersistentStorage` return. -/
inductive StorageErr where
  | secretNotFound
  | versionNotFound
  | secretExists
  | saveError
deriving DecidableEq

deriving instance DecidableEq for Except

/-- `storage.MemoryStorage`: the in-memory secret map keyed by
`"projectID/secretID"`. -/
structure MemoryStorage where
  secrets : List (String × Secret)
deriving DecidableEq

/-- `storage.NewMemoryStorage`. -/
def NewMemoryStorage : MemoryStorage := ⟨[]⟩

/-- `MemoryStorage.CreateSecret`: fails with `ErrSecretExists` when the key
is taken, otherwise stores the given secret. The returned store is the
state after the call (unchanged on error). -/
def MemoryStorage.CreateSecret (m : MemoryStorage) (projectID secretID : String)
    (secret : Secret) : Except StorageErr Unit × MemoryStorage :=
  let key := projectID ++ "/" ++ secretID
  match lookupA m.secrets key with
  | some _ => (Except.error StorageErr.secretExists, m)
  | none => (Except.ok (), ⟨insertA m.secrets key secret⟩)

/-- `MemoryStorage.GetSecret`. -/
def MemoryStorage.GetSecret (m : MemoryStorage) (projectID secretID : String) :
    Except StorageErr Secret :=
  let key := projectID ++ "/" ++ secretID
  match lookupA m.secrets key with
  | some secret => Except.ok secret
  | none => Except.error StorageErr.secretNotFound

/-- Model of Go `strings.HasPrefix`. -/
def goHasPre (s pre : String) : Bool := pre.data.isPrefixOf s.data

/-- Model of Go `strconv.Atoi`: optional sign followed by at least one
decimal digit (the 64-bit range check is not modelled). -/
def goAtoi (s : String) : Option Int :=
  let digitsToNat : List Char → Option Nat := fun ds =>
    if ds = [] then none
    else ds.foldl
      (fun acc c => match acc with
        | none => none
        | some n => if '0' ≤ c ∧ c ≤ '9' then some (n * 10 + (c.toNat - 48)) else none)
      (some 0)
  match s.data with
  | '+' :: ds => (digitsToNat ds).map Int.ofNat
  | '-' :: ds => (digitsToNat ds).map (fun n => -(Int.ofNat n))
  | ds => (digitsToNat ds).map Int.ofNat

/-- The secrets of `m` whose key has prefix `projectID ++ "/"`, in map
order — the list `ListSecrets` builds before sorting. -/
def matchingSecrets (m : MemoryStorage) (projectID : String) : List Secret :=
  ((m.secrets.filter (fun kv => goHasPre kv.1 (projectID ++ "/"))).map (·.2))

/-- Lexicographic comparison of character lists by code point — the model
of Go's `<`/`≤` on strings (byte-wise lexicographic; identical on the
code-point level for the ASCII names at hand). -/
def lexLe : List Char → List Char → Bool
  | [], _ => true
  | _ :: _, [] => false
  | c :: cs, d :: ds =>
    if c.toNat < d.toNat then true
    else if d.toNat < c.toNat then false
    else lexLe cs ds

/-- The comparison `ListSecrets` sorts with: ascending resource `Name`. -/
def nameLe (a b : Secret) : Bool := lexLe a.name.data b.name.data

/-- Ordered insertion with respect to `nameLe`. -/
def insertByName (x : Secret) : List Secret → List Secret
  | [] => [x]
  | y :: ys => if nameLe x y then x :: y :: ys else y :: insertByName x ys

/-- The `sort.Slice` call of `ListSecrets` modelled as a deterministic
sort by ascending `Name`. -/
def sortByName : List Secret → List Secret
  | [] => []
  | x :: xs => insertByName x (sortByName xs)

/-- The sorted list of the secrets of a project, as built by
`ListSecrets`. -/
def sortedMatching (m : MemoryStorage) (projectID : String) : List Secret :=
  sortByName (matchingSecrets m projectID)

/-- The page-start offset `ListSecrets` derives from a page token: a
non-empty token that parses to `0 ≤ idx < total` sets the start, anything
else leaves it at 0. -/
def pageStart (pageToken : String) (total : Nat) : Nat :=
  if pageToken ≠ "" then
    match goAtoi pageToken with
    | some i => if 0 ≤ i ∧ i < (total : Int) then i.toNat else 0
    | none => 0
  else 0

/-- `MemoryStorage.ListSecrets`: filter by project prefix, sort by name,
slice `[start:end]`, and return the end offset as next-page token when more
items remain. -/
def MemoryStorage.ListSecrets (m : MemoryStorage) (projectID : String)
    (pageSize : Int) (pageToken : String) : List Secret × String :=
  let sorted := sortedMatching m projectID
  let start := pageStart pageToken sorted.length
  let size : Nat := if pageSize ≤ 0 then 100 else pageSize.toNat
  let stop := if sorted.length < start + size then sorted.length else start + size
  ((sorted.take stop).drop start,
   if stop < sorted.length then Nat.repr stop else "")

/-- `MemoryStorage.DeleteSecret`. -/
def MemoryStorage.DeleteSecret (m : MemoryStorage) (projectID secretID : String) :
    Except StorageErr Unit × MemoryStorage :=
  let key := projectID ++ "/" ++ secretID
  match lookupA m.secrets key with
  | none => (Except.error StorageErr.secretNotFound, m)
  | some _ => (Except.ok (), ⟨eraseA m.secrets key⟩)

/-- `MemoryStorage.AddSecretVersion`: increments the resource's counter,
builds the new version with `strconv.Itoa(secret.VersionCount)` as its id,
and stores it. `createTime`/`etag` model the non-deterministic inputs of
`NewSecretVersion`. -/
def MemoryStorage.AddSecretVersion (m : MemoryStorage) (projectID secretID : String)
    (data : List Nat) (createTime : Nat) (etag : String) :
    Except StorageErr SecretVersion × MemoryStorage :=
  let key := projectID ++ "/" ++ secretID
  match lookupA m.secrets key with
  | none => (Except.error StorageErr.secretNotFound, m)
  | some secret =>
    let count := secret.versionCount + 1
    let versionID := Nat.repr count
    let version := NewSecretVersion projectID secretID versionID data createTime etag
    let secret2 := { secret with
      versionCount := count
      versions := insertA secret.versions versionID version }
    (Except.ok version, ⟨insertA m.secrets key secret2⟩)

/-- `MemoryStorage.GetSecretVersion`: resolves `"latest"` to the counter
value (failing when the counter is 0), then looks the id up. -/
def MemoryStorage.GetSecretVersion (m : MemoryStorage)
    (projectID secretID versionID : String) : Except StorageErr SecretVersion :=
  let key := projectID ++ "/" ++ secretID
  match lookupA m.secrets key with
  | none => Except.error StorageErr.secretNotFound
  | some secret =>
    if versionID = "latest" ∧ secret.versionCount = 0 then
      Except.error StorageErr.versionNotFound
    else
      let resolved := if versionID = "latest" then Nat.repr secret.versionCount
                      else versionID
      match lookupA secret.versions resolved with
      | some version => Except.ok version
      | none => Except.error StorageErr.versionNotFound

/-- `MemoryStorage.DeleteSecretVersion`: fails when the secret or the
version is missing, otherwise removes only the version entry. -/
def MemoryStorage.DeleteSecretVersion (m : MemoryStorage)
    (projectID secretID versionID : String) :
    Except StorageErr Unit × MemoryStorage :=
  let key := projectID ++ "/" ++ secretID
  match lookupA m.secrets key with
  | none => (Except.error StorageErr.secretNotFound, m)
  | some secret =>
    match lookupA secret.versions versionID with
    | none => (Except.error StorageErr.versionNotFound, m)
    | some _ =>
      (Except.ok (),
       ⟨insertA m.secrets key
          { secret with versions := eraseA secret.versions versionID }⟩)

/-- `MemoryStorage.AccessSecretVersion`: `GetSecretVersion` followed by
projection to the raw payload bytes. -/
def MemoryStorage.AccessSecretVersion (m : MemoryStorage)
    (projectID secretID versionID : String) : Except StorageErr (List Nat) :=
  match m.GetSecretVersion projectID secretID versionID with
  | Except.error e => Except.error e
  | Except.ok version => Except.ok version.data

/-- The JSON-visible projection of a `Secret` under its struct tags: the
fields `Versions` and `VersionCount` are tagged `json:"-"` (part_000 lines
15–16), so `encoding/json` writes and reads only the remaining fields. -/
structure PersistedSecret where
  name : String
  createTime : Nat
  labels : List (String × String)
  replication : Replication
  etag : String
deriving DecidableEq

/-- What `json.Marshal` keeps of a `Secret`. -/
def marshalSecret (s : Secret) : PersistedSecret :=
  { name := s.name, createTime := s.createTime, labels := s.labels,
    replication := s.replication, etag := s.etag }

/-- What `json.Unmarshal` reconstructs from a marshalled `Secret`: the
tagged-out fields `Versions` and `VersionCount` get Go zero values (`nil`
map, `0`). -/
def unmarshalSecret (ps : PersistedSecret) : Secret :=
  { name := ps.name, createTime := ps.createTime, labels := ps.labels,
    replication := ps.replication, etag := ps.etag,
    versions := [], versionCount := 0 }

/-- `storage.Data` as it appears in the persisted JSON document: the secret
map (each value marshalled under its struct tags), a timestamp and the
format-version string. -/
structure StorageDocument where
  secrets : List (String × PersistedSecret)
  timestamp : Nat
  version : String
deriving DecidableEq

/-- `PersistentStorage.Save`: marshal the whole secret map with timestamp
and format tag `"1.0.0"` and overwrite the backing file; `now` models
`time.Now().UTC()`. -/
def PersistentStorage.Save (m : MemoryStorage) (now : Nat) : StorageDocument :=
  { secrets := m.secrets.map (fun kv => (kv.1, marshalSecret kv.2)),
    timestamp := now,
    version := "1.0.0" }

/-- `PersistentStorage.Load` on an existing file: parse the document and
replace the store's secret map wholesale. -/
def PersistentStorage.Load (d : StorageDocument) : MemoryStorage :=
  ⟨d.secrets.map (fun kv => (kv.1, unmarshalSecret kv.2))⟩

/-- `PersistentStorage.AddSecretVersion` (persistence.go lines 104–122):
delegate to the in-memory store; if the subsequent `Save` fails (`saveOk =
false`), delete the version keyed by `version.GetVersionID()` from the
secret, decrement its `VersionCount`, and return the save error. -/
def PersistentStorage.AddSecretVersion (m : MemoryStorage)
    (projectID secretID : String) (data : List Nat) (createTime : Nat)
    (etag : String) (saveOk : Bool) :
    Except StorageErr SecretVersion × MemoryStorage :=
  match MemoryStorage.AddSecretVersion m projectID secretID data createTime etag with
  | (Except.error e, m1) => (Except.error e, m1)
  | (Except.ok version, m1) =>
    if saveOk then (Except.ok version, m1)
    else
      let key := projectID ++ "/" ++ secretID
      let m2 : MemoryStorage :=
        match lookupA m1.secrets key with
        | some secret =>
          ⟨insertA m1.secrets key
             { secret with
               versions := eraseA secret.versions version.GetVersionID
               versionCount := secret.versionCount - 1 }⟩
        | none => m1
      (Except.error StorageErr.saveError, m2)

/-- `N` sequential `AddSecretVersion` calls against one resource, one per
payload, collecting the returned results. `createTime`/`etag` model the
non-deterministic inputs (constant across calls; they do not influence
control flow). -/
def addVersionsSeq : MemoryStorage → String → String → List (List Nat) → Nat → String →
    List (Except StorageErr SecretVersion) × MemoryStorage
  | m, _, _, [], _, _ => ([], m)
  | m, p, s, d :: rest, t, e =>
    let r := MemoryStorage.AddSecretVersion m p s d t e
    let rest2 := addVersionsSeq r.2 p s rest t e
    (r.1 :: rest2.1, rest2.2)

/-- Every version stored under the secret is in the `ENABLED` lifecycle
state. -/
def Secret.allEnabled (s : Secret) : Bool :=
  s.versions.all (fun kv => kv.2.state == StateEnabled)

/-- Every version of every secret in the store is in the `ENABLED`
lifecycle state. -/
def MemoryStorage.allEnabled (m : MemoryStorage) : Bool :=
  m.secrets.all (fun ks => ks.2.allEnabled)

theorem lookupA_insertA_self {α : Type} (l : List (String × α)) (k : String) (v : α) :
    lookupA (insertA l k v) k = some v := by
  induction l with
  | nil => simp [insertA, lookupA]
  | cons hd tl ih =>
    obtain ⟨k1, v1⟩ := hd
    by_cases h : k1 = k <;> simp [insertA, lookupA, h, ih]

theorem lookupA_insertA_ne {α : Type} (l : List (String × α)) (k k2 : String) (v : α)
    (h : k ≠ k2) : lookupA (insertA l k v) k2 = lookupA l k2 := by
  induction l with
  | nil => simp [insertA, lookupA, h]
  | cons hd tl ih =>
    obtain ⟨k1, v1⟩ := hd
    by_cases h1 : k1 = k
    · subst h1
      simp [insertA, lookupA, h]
    · simp [insertA, lookupA, h1, ih]

theorem insertA_insertA {α : Type} (l : List (String × α)) (k : String) (v v2 : α) :
    insertA (insertA l k v) k v2 = insertA l k v2 := by
  induction l with
  | nil => simp [insertA]
  | cons hd tl ih =>
    obtain ⟨k1, v1⟩ := hd
    by_cases h : k1 = k <;> simp [insertA, h, ih]

theorem insertA_lookupA_eq {α : Type} (l : List (String × α)) (k : String) (v : α)
    (h : lookupA l k = some v) : insertA l k v = l := by
  induction l with
  | nil => simp [lookupA] at h
  | cons hd tl ih =>
    obtain ⟨k1, v1⟩ := hd
    by_cases h1 : k1 = k
    · subst h1
      simp [lookupA] at h
      simp [insertA, h]
    · simp [lookupA, h1] at h
      simp [insertA, h1, ih h]

theorem eraseA_of_lookupA_none {α : Type} (l : List (String × α)) (k : String)
    (h : lookupA l k = none) : eraseA l k = l := by
  induction l with
  | nil => simp [eraseA]
  | cons hd tl ih =>
    obtain ⟨k1, v1⟩ := hd
    by_cases h1 : k1 = k
    · simp [lookupA, h1] at h
    · simp [lookupA, h1] at h
      simp [eraseA, h1, ih h]

theorem lookupA_eraseA_self {α : Type} (l : List (String × α)) (k : String) :
    lookupA (eraseA l k) k = none := by
  induction l with
  | nil => simp [eraseA, lookupA]
  | cons hd tl ih =>
    obtain ⟨k1, v1⟩ := hd
    by_cases h : k1 = k <;> simp [eraseA, lookupA, h, ih]

theorem eraseA_insertA_of_none {α : Type} (l : List (String × α)) (k : String) (v : α)
    (h : lookupA l k = none) : eraseA (insertA l k v) k = l := by
  induction l with
  | nil => simp [insertA, eraseA]
  | cons hd tl ih =>
    obtain ⟨k1, v1⟩ := hd
    by_cases h1 : k1 = k
    · simp [lookupA, h1] at h
    · simp [lookupA, h1] at h
      simp [insertA, eraseA, h1, ih h]

/-- C7: for every store state and every key (scope, id) already present,
`CreateSecret` on that key fails with `AlreadyExists` and leaves the store
(and hence the previously stored resource) unmodified. -/
theorem c7_create_existing_fails (m : MemoryStorage) (projectID secretID : String)
    (prior fresh : Secret)
    (h : lookupA m.secrets (projectID ++ "/" ++ secretID) = some prior) :
    m.CreateSecret projectID secretID fresh =
      (Except.error StorageErr.secretExists, m) := by
  simp [MemoryStorage.CreateSecret, h]

theorem c7_witness :
    MemoryStorage.CreateSecret ⟨[("p1/s1", NewSecret "p1" "s1" [] 0 "e")]⟩
        "p1" "s1" (NewSecret "p1" "s1" [] 1 "f") =
      (Except.error StorageErr.secretExists,
       ⟨[("p1/s1", NewSecret "p1" "s1" [] 0 "e")]⟩) :=
  c7_create_existing_fails _ "p1" "s1" (NewSecret "p1" "s1" [] 0 "e") _ (by decide)

/-- C5: for every resource whose highest-numbered version (the one whose id
is the counter value) is deleted, `GetSecretVersion` with the sentinel
`"latest"` resolves to that now-missing id and fails with
`VersionNotFound`. -/
theorem c5_latest_after_delete_highest (m : MemoryStorage) (p s : String)
    (secret : Secret) (v : SecretVersion)
    (h : lookupA m.secrets (p ++ "/" ++ s) = some secret)
    (hc : secret.versionCount ≠ 0)
    (hv : lookupA secret.versions (Nat.repr secret.versionCount) = some v) :
    (m.DeleteSecretVersion p s (Nat.repr secret.versionCount)).1 = Except.ok () ∧
    (m.DeleteSecretVersion p s (Nat.repr secret.versionCount)).2.GetSecretVersion
        p s "latest" = Except.error StorageErr.versionNotFound := by
  simp [MemoryStorage.DeleteSecretVersion, h, hv, MemoryStorage.GetSecretVersion,
        lookupA_insertA_self, hc, lookupA_eraseA_self]

theorem c5_witness :
    (MemoryStorage.DeleteSecretVersion
        ⟨[("p1/s1",
           { NewSecret "p1" "s1" [] 0 "e" with
             versions := [("1", ⟨"projects/p1/secrets/s1/versions/1", 0,
                                 "ENABLED", "e", [97], ⟨"c", "s"⟩⟩)]
             versionCount := 1 })]⟩ "p1" "s1" (Nat.repr 1)).2.GetSecretVersion
      "p1" "s1" "latest" = Except.error StorageErr.versionNotFound :=
  (c5_latest_after_delete_highest _ "p1" "s1"
    { NewSecret "p1" "s1" [] 0 "e" with
      versions := [("1", ⟨"projects/p1/secrets/s1/versions/1", 0,
                          "ENABLED", "e", [97], ⟨"c", "s"⟩⟩)]
      versionCount := 1 }
    ⟨"projects/p1/secrets/s1/versions/1", 0, "ENABLED", "e", [97], ⟨"c", "s"⟩⟩
    (by decide) (by decide) (by decide)).2

/-- C6: `DeleteSecretVersion` removes only the version entry — the
resource record is otherwise unchanged, in particular its counter — and a
subsequent `AddSecretVersion` produces the id counter+1 (never reusing a
previously assigned id). -/
theorem c6_delete_version_keeps_counter (m : MemoryStorage)
    (p s vid : String) (secret : Secret) (v : SecretVersion)
    (d : List Nat) (t : Nat) (e : String)
    (h : lookupA m.secrets (p ++ "/" ++ s) = some secret)
    (hv : lookupA secret.versions vid = some v) :
    (m.DeleteSecretVersion p s vid).1 = Except.ok () ∧
    lookupA (m.DeleteSecretVersion p s vid).2.secrets (p ++ "/" ++ s) =
      some { secret with versions := eraseA secret.versions vid } ∧
    ((m.DeleteSecretVersion p s vid).2.AddSecretVersion p s d t e).1 =
      Except.ok (NewSecretVersion p s (Nat.repr (secret.versionCount + 1)) d t e) := by
  refine ⟨by simp [MemoryStorage.DeleteSecretVersion, h, hv], ?_, ?_⟩
  · simp [MemoryStorage.DeleteSecretVersion, h, hv, lookupA_insertA_self]
  · simp [MemoryStorage.DeleteSecretVersion, h, hv,
          MemoryStorage.AddSecretVersion, lookupA_insertA_self]

theorem c6_witness :
    ((MemoryStorage.DeleteSecretVersion
        ⟨[("p1/s1",
           { NewSecret "p1" "s1" [] 0 "e" with
             versions := [("1", ⟨"projects/p1/secrets/s1/versions/1", 0,
                                 "ENABLED", "e", [97], ⟨"c", "s"⟩⟩)]
             versionCount := 1 })]⟩ "p1" "s1" "1").2.AddSecretVersion
      "p1" "s1" [98] 2 "f").1 =
      Except.ok (NewSecretVersion "p1" "s1" (Nat.repr 2) [98] 2 "f") :=
  (c6_delete_version_keeps_counter _ "p1" "s1" "1"
    { NewSecret "p1" "s1" [] 0 "e" with
      versions := [("1", ⟨"projects/p1/secrets/s1/versions/1", 0,
                          "ENABLED", "e", [97], ⟨"c", "s"⟩⟩)]
      versionCount := 1 }
    ⟨"projects/p1/secrets/s1/versions/1", 0, "ENABLED", "e", [97], ⟨"c", "s"⟩⟩
    [98] 2 "f" (by decide) (by decide)).2.2

/-- Behaviour of `N` sequential `AddSecretVersion` calls: all succeed, the
i-th returns the version with id `counter + i`, and the final state holds
the last version under the id `counter + N`. -/
theorem addVersionsSeq_spec (payloads : List (List Nat)) :
    ∀ (m : MemoryStorage) (p s : String) (secret : Secret) (t : Nat) (e : String),
    lookupA m.secrets (p ++ "/" ++ s) = some secret →
    (addVersionsSeq m p s payloads t e).1 =
      ((List.range payloads.length).zip payloads).map
        (fun id => Except.ok
          (NewSecretVersion p s (Nat.repr (secret.versionCount + id.1 + 1)) id.2 t e)) ∧
    ∃ secret2,
      lookupA (addVersionsSeq m p s payloads t e).2.secrets (p ++ "/" ++ s) = some secret2 ∧
      secret2.versionCount = secret.versionCount + payloads.length ∧
      (∀ dl, payloads.getLast? = some dl →
        lookupA secret2.versions (Nat.repr (secret.versionCount + payloads.length)) =
          some (NewSecretVersion p s
            (Nat.repr (secret.versionCount + payloads.length)) dl t e)) := by
  induction payloads with
  | nil =>
    intro m p s secret t e h
    exact ⟨rfl, secret, h, by simp, by simp⟩
  | cons d rest ih =>
    intro m p s secret t e h
    have hstep : MemoryStorage.AddSecretVersion m p s d t e =
        (Except.ok (NewSecretVersion p s (Nat.repr (secret.versionCount + 1)) d t e),
         ⟨insertA m.secrets (p ++ "/" ++ s)
            { secret with
              versionCount := secret.versionCount + 1
              versions := insertA secret.versions (Nat.repr (secret.versionCount + 1))
                (NewSecretVersion p s (Nat.repr (secret.versionCount + 1)) d t e) }⟩) := by
      simp [MemoryStorage.AddSecretVersion, h]
    have hlook := lookupA_insertA_self m.secrets (p ++ "/" ++ s)
      { secret with
        versionCount := secret.versionCount + 1
        versions := insertA secret.versions (Nat.repr (secret.versionCount + 1))
          (NewSecretVersion p s (Nat.repr (secret.versionCount + 1)) d t e) }
    obtain ⟨ih1, secret2, ih2, ih3, ih4⟩ :=
      ih ⟨insertA m.secrets (p ++ "/" ++ s)
            { secret with
              versionCount := secret.versionCount + 1
              versions := insertA secret.versions (Nat.repr (secret.versionCount + 1))
                (NewSecretVersion p s (Nat.repr (secret.versionCount + 1)) d t e) }⟩
         p s _ t e hlook
    constructor
    · show (MemoryStorage.AddSecretVersion m p s d t e).1 ::
        (addVersionsSeq (MemoryStorage.AddSecretVersion m p s d t e).2 p s rest t e).1 = _
      rw [hstep]
      simp only [ih1]
      rw [List.length_cons, List.range_succ_eq_map, List.zip_cons_cons, List.map_cons,
          List.zip_map_left, List.map_map]
      refine congrArg₂ _ rfl (List.map_congr_left ?_)
      intro a _
      obtain ⟨i, x⟩ := a
      simp [Nat.succ_eq_add_one]
      ring_nf
    · refine ⟨secret2, ?_, ?_, ?_⟩
      · show lookupA (addVersionsSeq (MemoryStorage.AddSecretVersion m p s d t e).2
          p s rest t e).2.secrets _ = _
        rw [hstep]
        exact ih2
      · simpa [Nat.add_comm, Nat.add_assoc, Nat.add_left_comm] using ih3
      · intro dl hdl
        rcases rest with _ | ⟨r0, rtl⟩
        · simp only [List.getLast?_singleton, Option.some.injEq] at hdl
          subst hdl
          simp only [addVersionsSeq, hstep] at ih2
          rw [hlook] at ih2
          cases ih2
          simp only [List.length_cons, List.length_nil, Nat.zero_add]
          exact lookupA_insertA_self _ _ _
        · have hdl2 : (r0 :: rtl).getLast? = some dl := by
            simpa using hdl
          have harith : secret.versionCount + 1 + (r0 :: rtl).length =
              secret.versionCount + (r0 :: rtl).length.succ := by omega
          have := ih4 dl hdl2
          rw [harith] at this
          show lookupA secret2.versions
            (Nat.repr (secret.versionCount + (r0 :: rtl).length.succ)) = _
          simpa using this

/-- C4: for every resource whose counter is 0 (a freshly created resource)
and every non-empty payload list, the N sequential `AddSecretVersion` calls
return version-ids exactly `"1"`..`"N"` in call order, and
`GetSecretVersion` with the sentinel `"latest"` then returns the version
with id `"N"` (the last one added). -/
theorem c4_sequential_adds (m : MemoryStorage) (p s : String) (secret : Secret)
    (payloads : List (List Nat)) (dl : List Nat) (t : Nat) (e : String)
    (h : lookupA m.secrets (p ++ "/" ++ s) = some secret)
    (h0 : secret.versionCount = 0)
    (hl : payloads.getLast? = some dl) :
    (addVersionsSeq m p s payloads t e).1 =
      ((List.range payloads.length).zip payloads).map
        (fun id => Except.ok (NewSecretVersion p s (Nat.repr (id.1 + 1)) id.2 t e)) ∧
    (addVersionsSeq m p s payloads t e).2.GetSecretVersion p s "latest" =
      Except.ok (NewSecretVersion p s (Nat.repr payloads.length) dl t e) := by
  obtain ⟨h1, secret2, h2, h3, h4⟩ := addVersionsSeq_spec payloads m p s secret t e h
  have hlen : payloads.length ≠ 0 := by
    rcases payloads with _ | ⟨a, tl⟩
    · simp at hl
    · simp
  constructor
  · rw [h1]
    refine List.map_congr_left ?_
    intro a _
    simp [h0]
  · have h4b := h4 dl hl
    rw [h0, Nat.zero_add] at h4b
    have hcount : secret2.versionCount = payloads.length := by
      rw [h3, h0, Nat.zero_add]
    simp [MemoryStorage.GetSecretVersion, h2, hcount, hlen, h4b]

theorem c4_witness :
    (addVersionsSeq ⟨[("p1/s1", NewSecret "p1" "s1" [] 0 "e")]⟩ "p1" "s1"
        [[97], [98]] 3 "f").1 =
      ((List.range 2).zip [[97], [98]]).map
        (fun id => Except.ok (NewSecretVersion "p1" "s1" (Nat.repr (id.1 + 1)) id.2 3 "f")) ∧
    (addVersionsSeq ⟨[("p1/s1", NewSecret "p1" "s1" [] 0 "e")]⟩ "p1" "s1"
        [[97], [98]] 3 "f").2.GetSecretVersion "p1" "s1" "latest" =
      Except.ok (NewSecretVersion "p1" "s1" (Nat.repr 2) [98] 3 "f") :=
  c4_sequential_adds _ "p1" "s1" (NewSecret "p1" "s1" [] 0 "e") [[97], [98]] [98] 3 "f"
    (by decide) (by decide) (by decide)

theorem lexLe_total (x : List Char) : ∀ y, lexLe x y = true ∨ lexLe y x = true := by
  induction x with
  | nil => intro y; left; rfl
  | cons c cs ih =>
    intro y
    cases y with
    | nil => right; rfl
    | cons d ds =>
      simp only [lexLe]
      rcases Nat.lt_trichotomy c.toNat d.toNat with h | h | h
      · left; simp [h]
      · have h2 : ¬ c.toNat < d.toNat := by omega
        have h3 : ¬ d.toNat < c.toNat := by omega
        rcases ih ds with h4 | h4
        · left; simp [h2, h3, h4]
        · right; simp [h2, h3, h4]
      · right; simp [h]

theorem lexLe_trans : ∀ x y z : List Char,
    lexLe x y = true → lexLe y z = true → lexLe x z = true := by
  intro x
  induction x with
  | nil => intro y z _ _; rfl
  | cons c cs ih =>
    intro y z hxy hyz
    cases y with
    | nil => simp [lexLe] at hxy
    | cons d ds =>
      cases z with
      | nil => simp [lexLe] at hyz
      | cons e es =>
        simp only [lexLe] at hxy hyz ⊢
        by_cases hcd : c.toNat < d.toNat
        · by_cases hde : d.toNat < e.toNat
          · simp [show c.toNat < e.toNat by omega]
          · by_cases hed : e.toNat < d.toNat
            · simp [hde, hed] at hyz
            · simp [show c.toNat < e.toNat by omega]
        · by_cases hdc : d.toNat < c.toNat
          · simp [hcd, hdc] at hxy
          · by_cases hde : d.toNat < e.toNat
            · simp [show c.toNat < e.toNat by omega]
            · by_cases hed : e.toNat < d.toNat
              · simp [hde, hed] at hyz
              · have h1 : ¬ c.toNat < e.toNat := by omega
                have h2 : ¬ e.toNat < c.toNat := by omega
                simp only [hcd, hdc, if_neg, if_false] at hxy
                simp only [hde, hed, if_neg, if_false] at hyz
                simp only [h1, h2, if_neg, if_false]
                exact ih ds es (by simpa using hxy) (by simpa using hyz)

theorem insertByName_perm (x : Secret) (l : List Secret) :
    (insertByName x l).Perm (x :: l) := by
  induction l with
  | nil => simp [insertByName]
  | cons y ys ih =>
    simp only [insertByName]
    split
    · exact List.Perm.refl _
    · exact (ih.cons y).trans (List.Perm.swap x y ys)

theorem sortByName_perm (l : List Secret) : (sortByName l).Perm l := by
  induction l with
  | nil => simp [sortByName]
  | cons x xs ih =>
    exact (insertByName_perm x (sortByName xs)).trans (ih.cons x)

theorem insertByName_pairwise (x : Secret) (l : List Secret)
    (h : l.Pairwise (fun a b => nameLe a b = true)) :
    (insertByName x l).Pairwise (fun a b => nameLe a b = true) := by
  induction l with
  | nil => simp [insertByName]
  | cons y ys ih =>
    simp only [insertByName]
    rcases h with _ | ⟨hy, hys⟩
    split
    · rename_i hxy
      refine List.Pairwise.cons ?_ (List.Pairwise.cons hy hys)
      intro z hz
      cases hz with
      | head => exact hxy
      | tail _ hz => exact lexLe_trans _ _ _ hxy (hy z hz)
    · rename_i hxy
      have hyx : nameLe y x = true := by
        rcases lexLe_total x.name.data y.name.data with h1 | h1
        · exact absurd h1 hxy
        · exact h1
      refine List.Pairwise.cons ?_ (ih hys)
      intro z hz
      have hz2 : z = x ∨ z ∈ ys := by
        have := (insertByName_perm x ys).mem_iff.mp hz
        simpa using this
      rcases hz2 with rfl | hz2
      · exact hyx
      · exact hy z hz2

theorem sortByName_pairwise (l : List Secret) :
    (sortByName l).Pairwise (fun a b => nameLe a b = true) := by
  induction l with
  | nil => simp [sortByName]
  | cons x xs ih => exact insertByName_pairwise x (sortByName xs) ih

/-- C8: for every store holding exactly 5 resources in a scope and
pageSize 2, three successive `ListSecrets` calls, each passing the previous
next-page-token, return tokens "2", "4", "" and pages that concatenate to
the sorted list — a permutation of all the scope's resources (no repeats,
no omissions) in ascending name order. -/
theorem c8_pagination (m : MemoryStorage) (scope : String)
    (h5 : (sortedMatching m scope).length = 5) :
    (m.ListSecrets scope 2 "").2 = "2" ∧
    (m.ListSecrets scope 2 "2").2 = "4" ∧
    (m.ListSecrets scope 2 "4").2 = "" ∧
    (m.ListSecrets scope 2 "").1 ++ (m.ListSecrets scope 2 "2").1 ++
      (m.ListSecrets scope 2 "4").1 = sortedMatching m scope ∧
    (sortedMatching m scope).Perm (matchingSecrets m scope) ∧
    (sortedMatching m scope).Pairwise (fun a b => nameLe a b = true) := by
  have hperm : (sortedMatching m scope).Perm (matchingSecrets m scope) :=
    sortByName_perm _
  have hpair : (sortedMatching m scope).Pairwise (fun a b => nameLe a b = true) :=
    sortByName_pairwise _
  rcases hs : sortedMatching m scope with _ | ⟨a1, _ | ⟨a2, _ | ⟨a3, _ | ⟨a4, _ | ⟨a5, tl⟩⟩⟩⟩⟩ <;>
    rw [hs] at h5 <;> simp only [List.length_cons, List.length_nil] at h5 <;> try omega
  have htl : tl = [] := by
    have : tl.length = 0 := by omega
    exact List.length_eq_zero.mp this
  subst htl
  rw [hs] at hperm hpair
  refine ⟨?_, ?_, ?_, ?_, hperm, hpair⟩
  · simp only [MemoryStorage.ListSecrets, hs, List.length_cons, List.length_nil]
    decide
  · simp only [MemoryStorage.ListSecrets, hs, List.length_cons, List.length_nil]
    decide
  · simp only [MemoryStorage.ListSecrets, hs, List.length_cons, List.length_nil]
    decide
  · have hp0 : pageStart "" 5 = 0 := by decide
    have hp2 : pageStart "2" 5 = 2 := by decide
    have hp4 : pageStart "4" 5 = 4 := by decide
    have ht2 : Int.toNat 2 = 2 := by decide
    simp only [MemoryStorage.ListSecrets, hs, List.length_cons, List.length_nil,
               Nat.zero_add, hp0, hp2, hp4, ht2]
    norm_num

theorem c8_witness :
    (let mw : MemoryStorage :=
      ⟨[("p/c", NewSecret "p" "c" [] 0 "e1"), ("p/a", NewSecret "p" "a" [] 0 "e2"),
        ("q/z", NewSecret "q" "z" [] 0 "e3"), ("p/e", NewSecret "p" "e" [] 0 "e4"),
        ("p/b", NewSecret "p" "b" [] 0 "e5"), ("p/d", NewSecret "p" "d" [] 0 "e6")]⟩
     (mw.ListSecrets "p" 2 "").2 = "2" ∧
     (mw.ListSecrets "p" 2 "2").2 = "4" ∧
     (mw.ListSecrets "p" 2 "4").2 = "" ∧
     (mw.ListSecrets "p" 2 "").1 ++ (mw.ListSecrets "p" 2 "2").1 ++
       (mw.ListSecrets "p" 2 "4").1 = sortedMatching mw "p" ∧
     (sortedMatching mw "p").Perm (matchingSecrets mw "p") ∧
     (sortedMatching mw "p").Pairwise (fun a b => nameLe a b = true)) :=
  c8_pagination
    ⟨[("p/c", NewSecret "p" "c" [] 0 "e1"), ("p/a", NewSecret "p" "a" [] 0 "e2"),
      ("q/z", NewSecret "q" "z" [] 0 "e3"), ("p/e", NewSecret "p" "e" [] 0 "e4"),
      ("p/b", NewSecret "p" "b" [] 0 "e5"), ("p/d", NewSecret "p" "d" [] 0 "e6")]⟩
    "p" (by decide)

set_option maxRecDepth 40000 in
/-- C3 (amended): creating resource "p1/s1", adding the payload "abc",
then reading version "1" yields payload "abc" with CRC-32 0x352441C2 (the
numeric IEEE CRC of "abc" — not the 0x4F5344CE the original claim states)
and the SHA-256 digest of "abc"; DeleteSecret then succeeds and a
subsequent GetSecret fails with NotFound. -/
theorem c3_concrete_scenario :
    (let m1 := (MemoryStorage.CreateSecret NewMemoryStorage "p1" "s1"
                  (NewSecret "p1" "s1" [] 0 "e0")).2
     let r := MemoryStorage.AddSecretVersion m1 "p1" "s1" [97, 98, 99] 1 "e1"
     let g := r.2.GetSecretVersion "p1" "s1" "1"
     (MemoryStorage.CreateSecret NewMemoryStorage "p1" "s1"
        (NewSecret "p1" "s1" [] 0 "e0")).1 = Except.ok () ∧
     g.map (fun v => v.data) = Except.ok [97, 98, 99] ∧
     g.map (fun v => v.checksum.crc32c) = Except.ok "352441c2" ∧
     ChecksumIEEE [97, 98, 99] = 0x352441C2 ∧
     g.map (fun v => v.checksum.sha256) =
       Except.ok "ba7816bf8f01cfea414140de5dae2223b00361a396177a9cb410ff61f20015ad" ∧
     (r.2.DeleteSecret "p1" "s1").1 = Except.ok () ∧
     (r.2.DeleteSecret "p1" "s1").2.GetSecret "p1" "s1" =
       Except.error StorageErr.secretNotFound) := by
  simp only []
  decide

/-- C3 counterexample: the checksum record the store computes for payload
"abc" carries the IEEE CRC-32 0x352441C2 ("352441c2"), not the
0x4F5344CE ("4f5344ce") stated in the claim. -/
theorem c3_crc_constant_refuted :
    (generateChecksum [97, 98, 99]).crc32c = "352441c2" ∧
    (generateChecksum [97, 98, 99]).crc32c ≠ "4f5344ce" ∧
    ChecksumIEEE [97, 98, 99] ≠ 0x4F5344CE := by
  refine ⟨by decide, by decide, by decide⟩

set_option maxRecDepth 40000 in
/-- C1: evaluation of Save-then-Load at a store holding resource "p1/s1"
with one version (payload "abc"). Because `Secret.Versions`,
`Secret.VersionCount` (part_000 lines 15-16) and `SecretVersion.Data`
(version.go line 14) carry the struct tag for exclusion from JSON, the
persisted document contains no version maps at all: the reloaded store has
the resource with an empty version map and a zero counter, so the
round-trip does not reproduce the resource/version map the claim (and the
README's "persistence for data across restarts") requires. -/
theorem c1_save_load_drops_versions :
    (let m2 := ((MemoryStorage.CreateSecret NewMemoryStorage "p1" "s1"
                   (NewSecret "p1" "s1" [] 0 "e0")).2.AddSecretVersion
                 "p1" "s1" [97, 98, 99] 1 "e1").2
     let loaded := PersistentStorage.Load (PersistentStorage.Save m2 7)
     (lookupA m2.secrets "p1/s1").map (fun s => s.versions.length) = some 1 ∧
     (lookupA loaded.secrets "p1/s1").map (fun s => s.versions.length) = some 0 ∧
     (lookupA loaded.secrets "p1/s1").map (fun s => s.versionCount) = some 0 ∧
     loaded ≠ m2) := by
  simp only []
  decide

theorem afterLastMarker_cons_eq (c : Char) (s : List Char) :
    afterLastMarker (c :: s) =
      match afterLastMarker s with
      | some r => some r
      | none =>
        if 10 < (c :: s).length && versionsMarker.isPrefixOf (c :: s) then
          some ((c :: s).drop 10)
        else none := rfl

theorem afterLastMarker_no_slash (s : List Char) (h : ∀ c ∈ s, c ≠ '/') :
    afterLastMarker s = none := by
  induction s with
  | nil => rfl
  | cons c cs ih =>
    have hc : c ≠ '/' := h c (by simp)
    have ihs : afterLastMarker cs = none := ih (fun x hx => h x (by simp [hx]))
    have hpre : versionsMarker.isPrefixOf (c :: cs) = false := by
      simp only [versionsMarker, List.isPrefixOf, Bool.and_eq_false_iff]
      left
      simp [beq_eq_false_iff_ne]
      exact fun hcc => hc hcc.symm
    simp [afterLastMarker, ihs, hpre]

theorem afterLastMarker_cons_ne (c : Char) (s : List Char) (hc : c ≠ '/')
    (hs : afterLastMarker s = none) : afterLastMarker (c :: s) = none := by
  have hpre : versionsMarker.isPrefixOf (c :: s) = false := by
    simp only [versionsMarker, List.isPrefixOf, Bool.and_eq_false_iff]
    left
    simp [beq_eq_false_iff_ne]
    exact fun hcc => hc hcc.symm
  simp [afterLastMarker, hs, hpre]

theorem afterLastMarker_marker_append (d : List Char) (hd : d ≠ [])
    (h : ∀ c ∈ d, c ≠ '/') : afterLastMarker (versionsMarker ++ d) = some d := by
  have h0 : afterLastMarker d = none := afterLastMarker_no_slash d h
  have h1 : afterLastMarker ('/' :: d) = none := by
    have hpre : (['v','e','r','s','i','o','n','s','/'] : List Char).isPrefixOf d = false := by
      by_contra hcon
      have : (['v','e','r','s','i','o','n','s','/'] : List Char).isPrefixOf d = true := by
        revert hcon
        cases (['v','e','r','s','i','o','n','s','/'] : List Char).isPrefixOf d <;> simp
      obtain ⟨t, rfl⟩ := List.isPrefixOf_iff_prefix.mp this
      exact h '/' (by simp) rfl
    have hmp : versionsMarker.isPrefixOf ('/' :: d) = false := by
      simp [versionsMarker, List.isPrefixOf, hpre]
    simp [afterLastMarker, h0, hmp]
  have h2 : afterLastMarker ('s' :: '/' :: d) = none :=
    afterLastMarker_cons_ne _ _ (by decide) h1
  have h3 : afterLastMarker ('n' :: 's' :: '/' :: d) = none :=
    afterLastMarker_cons_ne _ _ (by decide) h2
  have h4 : afterLastMarker ('o' :: 'n' :: 's' :: '/' :: d) = none :=
    afterLastMarker_cons_ne _ _ (by decide) h3
  have h5 : afterLastMarker ('i' :: 'o' :: 'n' :: 's' :: '/' :: d) = none :=
    afterLastMarker_cons_ne _ _ (by decide) h4
  have h6 : afterLastMarker ('s' :: 'i' :: 'o' :: 'n' :: 's' :: '/' :: d) = none :=
    afterLastMarker_cons_ne _ _ (by decide) h5
  have h7 : afterLastMarker ('r' :: 's' :: 'i' :: 'o' :: 'n' :: 's' :: '/' :: d) = none :=
    afterLastMarker_cons_ne _ _ (by decide) h6
  have h8 : afterLastMarker ('e' :: 'r' :: 's' :: 'i' :: 'o' :: 'n' :: 's' :: '/' :: d) = none :=
    afterLastMarker_cons_ne _ _ (by decide) h7
  have h9 : afterLastMarker ('v' :: 'e' :: 'r' :: 's' :: 'i' :: 'o' :: 'n' :: 's' :: '/' :: d) = none :=
    afterLastMarker_cons_ne _ _ (by decide) h8
  have hpos : 0 < d.length := List.length_pos.mpr hd
  show afterLastMarker
    ('/' :: 'v' :: 'e' :: 'r' :: 's' :: 'i' :: 'o' :: 'n' :: 's' :: '/' :: d) = some d
  rw [afterLastMarker_cons_eq, h9]
  have hcond : (10 <
      ('/' :: 'v' :: 'e' :: 'r' :: 's' :: 'i' :: 'o' :: 'n' :: 's' :: '/' :: d).length) := by
    simp
    omega
  simp [hcond, versionsMarker, List.isPrefixOf, hd]

theorem afterLastMarker_append (p d : List Char) (hd : d ≠ [])
    (h : ∀ c ∈ d, c ≠ '/') :
    afterLastMarker (p ++ (versionsMarker ++ d)) = some d := by
  induction p with
  | nil => simpa using afterLastMarker_marker_append d hd h
  | cons c cs ih =>
    rw [List.cons_append, afterLastMarker_cons_eq, ih]

theorem digitChar_ne_slash (n : Nat) : Nat.digitChar n ≠ '/' := by
  rcases Nat.lt_or_ge n 16 with h | h
  · interval_cases n <;> decide
  · simp only [Nat.digitChar,
      if_neg (show ¬ n = 0 by omega), if_neg (show ¬ n = 1 by omega),
      if_neg (show ¬ n = 2 by omega), if_neg (show ¬ n = 3 by omega),
      if_neg (show ¬ n = 4 by omega), if_neg (show ¬ n = 5 by omega),
      if_neg (show ¬ n = 6 by omega), if_neg (show ¬ n = 7 by omega),
      if_neg (show ¬ n = 8 by omega), if_neg (show ¬ n = 9 by omega),
      if_neg (show ¬ n = 10 by omega), if_neg (show ¬ n = 11 by omega),
      if_neg (show ¬ n = 12 by omega), if_neg (show ¬ n = 13 by omega),
      if_neg (show ¬ n = 14 by omega), if_neg (show ¬ n = 15 by omega)]
    decide

theorem toDigitsCore_ne_slash :
    ∀ (fuel n : Nat) (acc : List Char), (∀ c ∈ acc, c ≠ '/') →
      ∀ c ∈ Nat.toDigitsCore 10 fuel n acc, c ≠ '/' := by
  intro fuel
  induction fuel with
  | zero => intro n acc hacc; simpa [Nat.toDigitsCore] using hacc
  | succ f ih =>
    intro n acc hacc c hc
    rw [Nat.toDigitsCore] at hc
    by_cases hz : n / 10 = 0
    · simp only [hz, if_true] at hc
      rcases List.mem_cons.mp hc with hc | hc
      · exact hc ▸ digitChar_ne_slash (n % 10)
      · exact hacc c hc
    · simp only [hz, if_false] at hc
      refine ih (n / 10) (Nat.digitChar (n % 10) :: acc) ?_ c hc
      intro x hx
      rcases List.mem_cons.mp hx with hx | hx
      · exact hx ▸ digitChar_ne_slash (n % 10)
      · exact hacc x hx

theorem repr_ne_slash (n : Nat) : ∀ c ∈ (Nat.repr n).data, c ≠ '/' := by
  intro c hc
  have : (Nat.repr n).data = Nat.toDigits 10 n := rfl
  rw [this, Nat.toDigits] at hc
  exact toDigitsCore_ne_slash (n + 1) n [] (by simp) c hc

theorem toDigitsCore_length_le :
    ∀ (fuel n : Nat) (acc : List Char),
      acc.length ≤ (Nat.toDigitsCore 10 fuel n acc).length := by
  intro fuel
  induction fuel with
  | zero => intro n acc; simp [Nat.toDigitsCore]
  | succ f ih =>
    intro n acc
    rw [Nat.toDigitsCore]
    by_cases hz : n / 10 = 0
    · simp [hz]
    · simp only [hz, if_false]
      calc acc.length ≤ (Nat.digitChar (n % 10) :: acc).length := by simp
        _ ≤ _ := ih (n / 10) (Nat.digitChar (n % 10) :: acc)

theorem repr_ne_nil (n : Nat) : (Nat.repr n).data ≠ [] := by
  have : (Nat.repr n).data = Nat.toDigits 10 n := rfl
  rw [this, Nat.toDigits, Nat.toDigitsCore]
  by_cases hz : n / 10 = 0
  · simp [hz]
  · simp only [hz, if_false]
    have := toDigitsCore_length_le n (n / 10) [Nat.digitChar (n % 10)]
    intro hnil
    rw [hnil] at this
    simp at this

theorem GetVersionID_NewSecretVersion (p s : String) (n : Nat) (d : List Nat)
    (t : Nat) (e : String) :
    (NewSecretVersion p s (Nat.repr n) d t e).GetVersionID = Nat.repr n := by
  show (match afterLastMarker
      ("projects/" ++ p ++ "/secrets/" ++ s ++ "/versions/" ++ Nat.repr n).data with
    | some r => (⟨r⟩ : String)
    | none => "") = Nat.repr n
  have hdata : ("projects/" ++ p ++ "/secrets/" ++ s ++ "/versions/" ++ Nat.repr n).data =
      (("projects/" ++ p ++ "/secrets/" ++ s).data) ++ (versionsMarker ++ (Nat.repr n).data) := by
    simp [String.data_append, versionsMarker]
  rw [hdata, afterLastMarker_append _ _ (repr_ne_nil n) (repr_ne_slash n)]

/-- C2 (amended): when Save fails after a successful in-memory
AddSecretVersion, the wrapper rolls back exactly the change it made — it
removes the version it just added AND decrements the counter it just
incremented (the code runs `secret.VersionCount--`, contrary to the
claim's "decrements no counter") — returning the save error and leaving
the in-memory store in the state it had before the operation. The
freshness hypothesis (no stored version already uses id counter+1) is the
store's reachability invariant. -/
theorem c2_rollback_restores_state (m : MemoryStorage) (p s : String)
    (secret : Secret) (d : List Nat) (t : Nat) (e : String)
    (h : lookupA m.secrets (p ++ "/" ++ s) = some secret)
    (hfresh : lookupA secret.versions (Nat.repr (secret.versionCount + 1)) = none) :
    PersistentStorage.AddSecretVersion m p s d t e false =
      (Except.error StorageErr.saveError, m) := by
  have hmem : MemoryStorage.AddSecretVersion m p s d t e =
      (Except.ok (NewSecretVersion p s (Nat.repr (secret.versionCount + 1)) d t e),
       ⟨insertA m.secrets (p ++ "/" ++ s)
          { secret with
            versionCount := secret.versionCount + 1
            versions := insertA secret.versions (Nat.repr (secret.versionCount + 1))
              (NewSecretVersion p s (Nat.repr (secret.versionCount + 1)) d t e) }⟩) := by
    simp [MemoryStorage.AddSecretVersion, h]
  unfold PersistentStorage.AddSecretVersion
  rw [hmem]
  simp only [Bool.false_eq_true, if_false, lookupA_insertA_self,
             GetVersionID_NewSecretVersion]
  rw [eraseA_insertA_of_none _ _ _ hfresh]
  congr 1
  rw [insertA_insertA]
  have hrolled : ({ secret with
                    versionCount := secret.versionCount + 1 - 1 } : Secret) = secret := rfl
  rw [hrolled, insertA_lookupA_eq _ _ _ h]

set_option maxRecDepth 40000 in
/-- C2 counterexample: on a fresh resource (counter 0), after
AddSecretVersion with a failing Save, the rollback leaves the counter at
0 — it HAS been decremented; under the claim's "decrements no counter"
the counter would still be 1. -/
theorem c2_no_decrement_refuted :
    (let m1 := (MemoryStorage.CreateSecret NewMemoryStorage "p1" "s1"
                  (NewSecret "p1" "s1" [] 0 "e0")).2
     let r := PersistentStorage.AddSecretVersion m1 "p1" "s1" [97] 1 "e1" false
     r.1 = Except.error StorageErr.saveError ∧
     (lookupA r.2.secrets "p1/s1").map (fun sec => sec.versionCount) = some 0 ∧
     (lookupA r.2.secrets "p1/s1").map (fun sec => sec.versionCount) ≠ some 1) := by
  simp only []
  decide

theorem c2_witness :
    PersistentStorage.AddSecretVersion
        ⟨[("p1/s1", NewSecret "p1" "s1" [] 0 "e0")]⟩ "p1" "s1" [97] 1 "e1" false =
      (Except.error StorageErr.saveError,
       ⟨[("p1/s1", NewSecret "p1" "s1" [] 0 "e0")]⟩) :=
  c2_rollback_restores_state _ "p1" "s1" (NewSecret "p1" "s1" [] 0 "e0") [97] 1 "e1"
    (by decide) (by decide)

theorem all_insertA {α : Type} (p : α → Bool) (l : List (String × α)) (k : String)
    (v : α) (hl : l.all (fun kv => p kv.2) = true) (hv : p v = true) :
    (insertA l k v).all (fun kv => p kv.2) = true := by
  induction l with
  | nil => simp [insertA, hv]
  | cons hd tl ih =>
    obtain ⟨k1, v1⟩ := hd
    simp only [List.all_cons, Bool.and_eq_true] at hl
    by_cases h : k1 = k <;> simp [insertA, h, hv, hl.1, hl.2, ih hl.2]

theorem all_eraseA {α : Type} (p : α → Bool) (l : List (String × α)) (k : String)
    (hl : l.all (fun kv => p kv.2) = true) :
    (eraseA l k).all (fun kv => p kv.2) = true := by
  induction l with
  | nil => simp [eraseA]
  | cons hd tl ih =>
    obtain ⟨k1, v1⟩ := hd
    simp only [List.all_cons, Bool.and_eq_true] at hl
    by_cases h : k1 = k <;> simp [eraseA, h, hl.1, ih hl.2]

theorem all_lookupA {α : Type} (p : α → Bool) (l : List (String × α)) (k : String)
    (v : α) (hl : l.all (fun kv => p kv.2) = true) (hk : lookupA l k = some v) :
    p v = true := by
  induction l with
  | nil => simp [lookupA] at hk
  | cons hd tl ih =>
    obtain ⟨k1, v1⟩ := hd
    simp only [List.all_cons, Bool.and_eq_true] at hl
    by_cases h : k1 = k
    · simp [lookupA, h] at hk
      exact hk ▸ hl.1
    · simp [lookupA, h] at hk
      exact ih hl.2 hk

/-- C10: every version is created in state ENABLED (`NewSecretVersion`),
no store operation ever moves a stored version out of ENABLED (all four
mutating operations preserve the all-enabled invariant; `CreateSecret`
stores the caller's secret, whose versions are empty when built by
`NewSecret`), and `AccessSecretVersion` returns the payload purely from
`GetSecretVersion`'s result — the lifecycle state is never inspected on
the read path. -/
theorem c10_states_always_enabled :
    (∀ (p s vid : String) (d : List Nat) (t : Nat) (e : String),
      (NewSecretVersion p s vid d t e).state = StateEnabled) ∧
    (∀ (m : MemoryStorage) (p s : String) (secret : Secret),
      m.allEnabled = true → secret.allEnabled = true →
      (m.CreateSecret p s secret).2.allEnabled = true) ∧
    (∀ (m : MemoryStorage) (p s : String) (d : List Nat) (t : Nat) (e : String),
      m.allEnabled = true → (m.AddSecretVersion p s d t e).2.allEnabled = true) ∧
    (∀ (m : MemoryStorage) (p s : String),
      m.allEnabled = true → (m.DeleteSecret p s).2.allEnabled = true) ∧
    (∀ (m : MemoryStorage) (p s vid : String),
      m.allEnabled = true → (m.DeleteSecretVersion p s vid).2.allEnabled = true) ∧
    (∀ (m : MemoryStorage) (p s vid : String) (v : SecretVersion),
      m.GetSecretVersion p s vid = Except.ok v →
      m.AccessSecretVersion p s vid = Except.ok v.data) := by
  refine ⟨fun _ _ _ _ _ _ => rfl, ?_, ?_, ?_, ?_, ?_⟩
  · intro m p s secret hm hsec
    simp only [MemoryStorage.allEnabled] at hm ⊢
    rcases hl : lookupA m.secrets (p ++ "/" ++ s) with _ | sec
    · simp only [MemoryStorage.CreateSecret, hl]
      exact all_insertA Secret.allEnabled _ _ _ hm hsec
    · simp only [MemoryStorage.CreateSecret, hl]
      exact hm
  · intro m p s d t e hm
    simp only [MemoryStorage.allEnabled] at hm ⊢
    rcases hl : lookupA m.secrets (p ++ "/" ++ s) with _ | sec
    · simp only [MemoryStorage.AddSecretVersion, hl]
      exact hm
    · simp only [MemoryStorage.AddSecretVersion, hl]
      refine all_insertA Secret.allEnabled _ _ _ hm ?_
      have hsec : sec.allEnabled = true := all_lookupA Secret.allEnabled _ _ _ hm hl
      simp only [Secret.allEnabled] at hsec ⊢
      exact all_insertA (fun vv : SecretVersion => vv.state == StateEnabled) _ _ _ hsec rfl
  · intro m p s hm
    simp only [MemoryStorage.allEnabled] at hm ⊢
    rcases hl : lookupA m.secrets (p ++ "/" ++ s) with _ | sec
    · simp only [MemoryStorage.DeleteSecret, hl]
      exact hm
    · simp only [MemoryStorage.DeleteSecret, hl]
      exact all_eraseA Secret.allEnabled _ _ hm
  · intro m p s vid hm
    simp only [MemoryStorage.allEnabled] at hm ⊢
    rcases hl : lookupA m.secrets (p ++ "/" ++ s) with _ | sec
    · simp only [MemoryStorage.DeleteSecretVersion, hl]
      exact hm
    · rcases hv : lookupA sec.versions vid with _ | v
      · simp only [MemoryStorage.DeleteSecretVersion, hl, hv]
        exact hm
      · simp only [MemoryStorage.DeleteSecretVersion, hl, hv]
        refine all_insertA Secret.allEnabled _ _ _ hm ?_
        have hsec : sec.allEnabled = true := all_lookupA Secret.allEnabled _ _ _ hm hl
        simp only [Secret.allEnabled] at hsec ⊢
        exact all_eraseA (fun vv : SecretVersion => vv.state == StateEnabled) _ _ hsec
  · intro m p s vid v hget
    simp only [MemoryStorage.AccessSecretVersion, hget]

theorem c10_witness :
    (NewSecretVersion "p1" "s1" "1" [97] 0 "e").state = StateEnabled ∧
    (MemoryStorage.CreateSecret NewMemoryStorage "p1" "s1"
       (NewSecret "p1" "s1" [] 0 "e")).2.allEnabled = true ∧
    (MemoryStorage.AddSecretVersion ⟨[("p1/s1", NewSecret "p1" "s1" [] 0 "e")]⟩
       "p1" "s1" [97] 1 "f").2.allEnabled = true ∧
    (MemoryStorage.DeleteSecret ⟨[("p1/s1", NewSecret "p1" "s1" [] 0 "e")]⟩
       "p1" "s1").2.allEnabled = true ∧
    (MemoryStorage.DeleteSecretVersion
       ⟨[("p1/s1",
          { NewSecret "p1" "s1" [] 0 "e" with
            versions := [("1", ⟨"projects/p1/secrets/s1/versions/1", 0,
                                "ENABLED", "e", [97], ⟨"c", "s"⟩⟩)]
            versionCount := 1 })]⟩ "p1" "s1" "1").2.allEnabled = true ∧
    MemoryStorage.AccessSecretVersion
       ⟨[("p1/s1",
          { NewSecret "p1" "s1" [] 0 "e" with
            versions := [("1", ⟨"projects/p1/secrets/s1/versions/1", 0,
                                "DISABLED", "e", [97], ⟨"c", "s"⟩⟩)]
            versionCount := 1 })]⟩ "p1" "s1" "1" = Except.ok [97] :=
  ⟨c10_states_always_enabled.1 "p1" "s1" "1" [97] 0 "e",
   c10_states_always_enabled.2.1 NewMemoryStorage "p1" "s1"
     (NewSecret "p1" "s1" [] 0 "e") (by decide) (by decide),
   c10_states_always_enabled.2.2.1 ⟨[("p1/s1", NewSecret "p1" "s1" [] 0 "e")]⟩
     "p1" "s1" [97] 1 "f" (by decide),
   c10_states_always_enabled.2.2.2.1 ⟨[("p1/s1", NewSecret "p1" "s1" [] 0 "e")]⟩
     "p1" "s1" (by decide),
   c10_states_always_enabled.2.2.2.2.1
     ⟨[("p1/s1",
        { NewSecret "p1" "s1" [] 0 "e" with
          versions := [("1", ⟨"projects/p1/secrets/s1/versions/1", 0,
                              "ENABLED", "e", [97], ⟨"c", "s"⟩⟩)]
          versionCount := 1 })]⟩ "p1" "s1" "1" (by decide),
   c10_states_always_enabled.2.2.2.2.2
     ⟨[("p1/s1",
        { NewSecret "p1" "s1" [] 0 "e" with
          versions := [("1", ⟨"projects/p1/secrets/s1/versions/1", 0,
                              "DISABLED", "e", [97], ⟨"c", "s"⟩⟩)]
          versionCount := 1 })]⟩ "p1" "s1" "1"
     ⟨"projects/p1/secrets/s1/versions/1", 0, "DISABLED", "e", [97], ⟨"c", "s"⟩⟩
     (by decide)⟩
